import Mathlib

/-!
Verification development for the pptx description extractor (`src/main.py`).

The Python program opens an uploaded byte buffer as a zip archive, selects
the members named `ppt/slides/slide*.xml`, sorts them by the integer formed
by the decimal digits of the path, parses each slide's XML, collects the
`descr` attribute of every `p:cNvPr` element (presentationml namespace), and
renders a plain-text report.  We embed this pipeline shallowly: the zip and
XML libraries are modelled at their interfaces (a buffer is either a decoded
member list or corrupt; a member's content is either a parsed XML tree or
malformed), everything written by the program itself is translated
definition by definition.
-/

namespace PptxParser

/-- An XML element: namespace URI, local name, attributes, children.
Models the lxml element tree handed back by `etree.parse`. -/
inductive XmlNode where
  | elem (ns : String) (localName : String) (attrs : List (String × String)) (children : List XmlNode)
deriving Repr

/-- Content of one archive member, as seen through `etree.parse`: either a
well-formed XML document or bytes on which the parser raises
`XMLSyntaxError`. -/
inductive Content where
  | xml (root : XmlNode)
  | malformed
deriving Repr

/-- One entry of the zip archive: its path in `namelist()` order together
with its content. -/
structure Member where
  path : String
  content : Content
deriving Repr

/-- An uploaded byte buffer as seen through `zipfile.ZipFile`: either it
decodes to a list of members, or `BadZipFile` is raised.  `raw` stands for
the bytes of a buffer that is not a well-formed zip archive. -/
inductive Buffer where
  | validZip (members : List Member)
  | corrupt (raw : List Nat)
deriving Repr

/-- Error outcomes of `extract_picture_descriptions` (the exceptions the
Python function lets propagate). -/
inductive ExtractError where
  | invalidArchive
  | malformedSlideXML
  | valueError
  | keyError
deriving Repr, DecidableEq

/-- One element of the `slides_output` list: `{"slide": index,
"descriptions": [...]}`. -/
structure SlideResult where
  slide : Nat
  descriptions : List String
deriving Repr, DecidableEq

/-- The presentationml namespace bound to prefix `p` in the xpath query. -/
def pNS : String := "http://schemas.openxmlformats.org/presentationml/2006/main"

/-- The drawingml namespace bound to `a`; registered but unused by the
query `//p:cNvPr`. -/
def aNS : String := "http://schemas.openxmlformats.org/drawingml/2006/main"

/-- The filter on member paths:
`f.startswith('ppt/slides/slide') and f.endswith('.xml')`.
(`str.startswith`/`str.endswith` are prefix/suffix tests on the character
sequence; stated over `String.data` so they evaluate in the kernel.) -/
def isSlidePath (p : String) : Bool :=
  List.isPrefixOf "ppt/slides/slide".data p.data && List.isSuffixOf ".xml".data p.data

/-- `filter(str.isdigit, x)`: the decimal digit characters of a path, in
path order. -/
def slideDigits (p : String) : List Char :=
  p.data.filter Char.isDigit

/-- Value of a decimal digit string read left to right, as `int` reads
`''.join(filter(str.isdigit, x))`. -/
def digitsToNat (cs : List Char) : Nat :=
  cs.foldl (fun n c => n * 10 + (c.toNat - 48)) 0

/-- The sort key `int(''.join(filter(str.isdigit, x)))`; `none` models the
`ValueError` that `int('')` raises when the path holds no digit. -/
def slideKey (p : String) : Option Nat :=
  if (slideDigits p).isEmpty then none else some (digitsToNat (slideDigits p))

/-- The decorate step of `sorted(..., key=...)`: pair every selected path
with its numeric key in listing order, or fail like `int('')` on the first
path without digits. -/
def keySlides : List String → Except ExtractError (List (Nat × String))
  | [] => Except.ok []
  | p :: rest =>
      match slideKey p with
      | none => Except.error ExtractError.valueError
      | some k => (keySlides rest).map (fun t => (k, p) :: t)

/-- The order `sorted` uses on decorated entries: compare keys. -/
def keyLE (a b : Nat × String) : Prop := a.1 ≤ b.1

instance : DecidableRel keyLE := fun a b => Nat.decLe a.1 b.1

instance : IsTotal (Nat × String) keyLE := ⟨fun a b => Nat.le_total a.1 b.1⟩

instance : IsTrans (Nat × String) keyLE := ⟨fun _ _ _ h1 h2 => Nat.le_trans h1 h2⟩

/-- `sorted([f for f in namelist if ...], key=lambda x: int(...))`: select
the slide members and stably sort them ascending by numeric key.  Python's
`sorted` is the stable ascending sort, a function its comparison key
determines uniquely; insertion sort with `keyLE` computes that same
function. -/
def sortSlideFiles (paths : List String) : Except ExtractError (List String) := do
  let sel := paths.filter isSlidePath
  let keyed ← keySlides sel
  pure ((keyed.insertionSort keyLE).map (fun kp => kp.2))

/-- `pptx_zip.open(slide_file)`: zipfile resolves a name through
`NameToInfo`, which keeps the last entry with that name. -/
def openMember (members : List Member) (p : String) : Option Content :=
  ((members.filter (fun m => m.path == p)).getLast?).map Member.content

/-- `etree.parse(file)`: yield the root or raise `XMLSyntaxError`. -/
def parseSlide : Content → Except ExtractError XmlNode
  | Content.xml root => Except.ok root
  | Content.malformed => Except.error ExtractError.malformedSlideXML

mutual

/-- `tree.xpath('//p:cNvPr', ...)`: all descendant-or-self elements whose
namespace is `pNS` and whose local name is `cNvPr`, in document order. -/
def findCNvPr : XmlNode → List XmlNode
  | XmlNode.elem ns n a cs =>
      (if ns = pNS ∧ n = "cNvPr" then [XmlNode.elem ns n a cs] else []) ++ findCNvPrList cs

/-- Document-order concatenation of the matches in a list of siblings. -/
def findCNvPrList : List XmlNode → List XmlNode
  | [] => []
  | c :: cs => findCNvPr c ++ findCNvPrList cs

end

/-- Attribute lookup, `pic.get('descr')` (attribute names in a well-formed
element are unique, so first match suffices). -/
def getAttr (n : XmlNode) (key : String) : Option String :=
  match n with
  | XmlNode.elem _ _ attrs _ => (attrs.find? (fun kv => kv.1 == key)).map (fun kv => kv.2)

/-- The sentinel substituted for a missing or falsy description. -/
def sentinel : String := "(No description)"

/-- `desc = descr if descr else "(No description)"`: Python truthiness, so
both an absent attribute (`None`) and the empty string fall to the
sentinel. -/
def descOf (n : XmlNode) : String :=
  match getAttr n "descr" with
  | some s => if s = "" then sentinel else s
  | none => sentinel

/-- The per-slide collection loop: one description per matched node, in
document order. -/
def slideDescriptions (root : XmlNode) : List String :=
  (findCNvPr root).map descOf

/-- The `for index, slide_file in enumerate(slide_files, start=1)` loop:
open each selected member, parse it, collect its descriptions, and emit
`{"slide": index, "descriptions": ...}`; any exception aborts the loop. -/
def processSlides (members : List Member) : List String → Nat → Except ExtractError (List SlideResult)
  | [], _ => Except.ok []
  | p :: rest, idx => do
      let c ← match openMember members p with
              | some c => Except.ok c
              | none => Except.error ExtractError.keyError
      let root ← parseSlide c
      let tail ← processSlides members rest (idx + 1)
      pure ({ slide := idx, descriptions := slideDescriptions root } :: tail)

/-- `extract_picture_descriptions(pptx_bytes)`: the whole pipeline.  The
`try`/`except` in the source logs and re-raises, so every failure
propagates to the caller unchanged. -/
def extract_picture_descriptions (buf : Buffer) : Except ExtractError (List SlideResult) :=
  match buf with
  | Buffer.corrupt _ => Except.error ExtractError.invalidArchive
  | Buffer.validZip members => do
      let slide_files ← sortSlideFiles (members.map Member.path)
      processSlides members slide_files 1

/-! ## Report formatting (`download_report`) -/

/-- A wall-clock instant, the fields `datetime.now()` exposes to
`strftime("%Y-%m-%d %H:%M:%S")`. -/
structure DateTime where
  year : Nat
  month : Nat
  day : Nat
  hour : Nat
  minute : Nat
  second : Nat
deriving Repr, DecidableEq

/-- Zero-pad a number to two characters, as the `%m %d %H %M %S`
directives do. -/
def pad2 (n : Nat) : String :=
  if n < 10 then "0" ++ toString n else toString n

/-- `datetime.now().strftime("%Y-%m-%d %H:%M:%S")`. -/
def strftimeYmdHMS (t : DateTime) : String :=
  toString t.year ++ "-" ++ pad2 t.month ++ "-" ++ pad2 t.day ++ " "
    ++ pad2 t.hour ++ ":" ++ pad2 t.minute ++ ":" ++ pad2 t.second

/-- The `report_lines` accumulation loop of `download_report`: header
lines, then for each slide a `Slide <n>:` line, one `  - <desc>` line per
description, and a blank line. -/
def reportLines (filename : String) (timestamp : String) (descriptions : List SlideResult) : List String :=
  descriptions.foldl
    (fun acc slide =>
      (acc ++ ["Slide " ++ toString slide.slide ++ ":"])
        ++ slide.descriptions.map (fun d => "  - " ++ d) ++ [""])
    ["📄 Report for: " ++ filename, "🕒 Generated: " ++ timestamp, ""]

/-- `content = "\n".join(report_lines)`. -/
def buildReport (filename : String) (timestamp : String) (descriptions : List SlideResult) : String :=
  String.intercalate "\n" (reportLines filename timestamp descriptions)

/-! ## The last-report slot and the download endpoint -/

/-- The module-global `last_report_data` dict. -/
structure LastReport where
  filename : Option String
  descriptions : Option (List SlideResult)
deriving Repr

/-- `str(None)` is `"None"`; an f-string renders a `None` filename so. -/
def strOfOpt : Option String → String
  | some s => s
  | none => "None"

/-- Python truthiness of `last_report_data["descriptions"]`: `None` and
the empty list are both falsy. -/
def truthy : Option (List SlideResult) → Bool
  | none => false
  | some l => !l.isEmpty

/-- The two outcomes of `download_report`: the 400 "No report available"
response, or a streamed text report. -/
inductive ReportResponse where
  | noReport
  | report (content : String)
deriving Repr, DecidableEq

/-- The `download_report` endpoint: guard `if not
last_report_data["descriptions"]`, then build the report with the current
time. -/
def download_report (st : LastReport) (now : DateTime) : ReportResponse :=
  if truthy st.descriptions then
    ReportResponse.report
      (buildReport (strOfOpt st.filename) (strftimeYmdHMS now) (st.descriptions.getD []))
  else
    ReportResponse.noReport

/-! ## Spec-side observers

Definitions written from the specification's wording, compared against the
embedded code. -/

/-- Numeric sort key of a path as the spec describes it: the unsigned
integer read off the concatenation of all decimal digit characters of the
path, in path order. -/
def slideOrderKey (p : String) : Nat :=
  digitsToNat (slideDigits p)

/-- Namespace URI of an element. -/
def nsOf : XmlNode → String
  | XmlNode.elem ns _ _ _ => ns

/-- Local name of an element. -/
def localNameOf : XmlNode → String
  | XmlNode.elem _ n _ _ => n

/-- The match predicate the spec states for the slide markup parser:
presentationml namespace and local name `cNvPr`. -/
def isTargetNode (n : XmlNode) : Bool :=
  nsOf n == pNS && localNameOf n == "cNvPr"

mutual

/-- All elements of a document in document (pre-)order. -/
def allElements : XmlNode → List XmlNode
  | XmlNode.elem ns n a cs => XmlNode.elem ns n a cs :: allElementsList cs

/-- Document-order concatenation of the elements of a sibling list. -/
def allElementsList : List XmlNode → List XmlNode
  | [] => []
  | c :: cs => allElements c ++ allElementsList cs

end

/-- The description the spec assigns to a matched node: the literal
attribute value when the `descr` attribute is present and non-empty, the
sentinel when it is absent or empty. -/
def descSpec (n : XmlNode) : String :=
  match getAttr n "descr" with
  | some s => if s ≠ "" then s else sentinel
  | none => sentinel

/-- The report block the spec prescribes for one slide: a `Slide <index>:`
line, one `  - <description>` line per description, then a blank line. -/
def slideBlockSpec (s : SlideResult) : List String :=
  ("Slide " ++ toString s.slide ++ ":")
    :: (s.descriptions.map (fun d => "  - " ++ d) ++ [""])

/-- The report layout the spec prescribes: the two header lines, a blank
separator, then the block of every slide in sequence order. -/
def reportLinesSpec (filename : String) (timestamp : String) (descriptions : List SlideResult) : List String :=
  ("📄 Report for: " ++ filename)
    :: ("🕒 Generated: " ++ timestamp)
    :: ""
    :: descriptions.flatMap slideBlockSpec

/-! ## Concrete example inputs -/

/-- A small archive whose two slides are listed out of numeric order and
whose second slide holds one described picture node. -/
def twoSlideArchive : List Member :=
  [ { path := "ppt/slides/slide2.xml",
      content := Content.xml (XmlNode.elem pNS "cNvPr" [("descr", "Chart")] []) },
    { path := "ppt/slides/slide1.xml",
      content := Content.xml (XmlNode.elem "urn:none" "sp" [] []) } ]

/-- The extraction the two-slide archive produces. -/
def twoSlideResult : List SlideResult :=
  [ { slide := 1, descriptions := [] },
    { slide := 2, descriptions := ["Chart"] } ]

/-! ## Helper lemmas -/

/-- Unfold `extract_picture_descriptions` on a readable archive. -/
theorem extract_validZip (members : List Member) :
    extract_picture_descriptions (Buffer.validZip members)
      = Except.bind (sortSlideFiles (members.map Member.path))
          (fun l => processSlides members l 1) := rfl

/-- Unfold `sortSlideFiles`. -/
theorem sortSlideFiles_eq (paths : List String) :
    sortSlideFiles paths
      = Except.bind (keySlides (paths.filter isSlidePath))
          (fun keyed => Except.ok ((keyed.insertionSort keyLE).map (fun kp => kp.2))) := rfl

/-- A successful decorate step pairs every selected path with its digit
key, in order. -/
theorem keySlides_ok :
    ∀ (sel : List String) (keyed : List (Nat × String)),
      keySlides sel = Except.ok keyed →
      keyed.map (fun kp => kp.2) = sel ∧ ∀ kp ∈ keyed, kp.1 = slideOrderKey kp.2
  | [], keyed => by
      intro h
      simp only [keySlides] at h
      cases h
      simp
  | p :: rest, keyed => by
      intro h
      simp only [keySlides] at h
      cases hk : slideKey p with
      | none => rw [hk] at h; cases h
      | some k =>
          rw [hk] at h
          cases hr : keySlides rest with
          | error e => rw [hr] at h; cases h
          | ok t =>
              rw [hr] at h
              simp only [Except.map] at h
              cases h
              have ih := keySlides_ok rest t hr
              have hkey : k = slideOrderKey p := by
                simp only [slideKey] at hk
                split at hk
                · cases hk
                · cases hk; rfl
              refine ⟨by simp [ih.1], ?_⟩
              intro kp hkp
              rcases List.mem_cons.mp hkp with hkp | hkp
              · subst hkp; exact hkey
              · exact ih.2 kp hkp

/-- Destructure a successful `sortSlideFiles`. -/
theorem sortSlideFiles_ok {paths l : List String}
    (h : sortSlideFiles paths = Except.ok l) :
    ∃ keyed, keySlides (paths.filter isSlidePath) = Except.ok keyed
      ∧ l = (keyed.insertionSort keyLE).map (fun kp => kp.2) := by
  rw [sortSlideFiles_eq] at h
  cases hk : keySlides (paths.filter isSlidePath) with
  | error e => rw [hk] at h; cases h
  | ok keyed =>
      rw [hk] at h
      simp only [Except.bind] at h
      cases h
      exact ⟨keyed, rfl, rfl⟩

/-- The selected slide paths come out sorted ascending by digit key. -/
theorem sortSlideFiles_pairwise {paths l : List String}
    (h : sortSlideFiles paths = Except.ok l) :
    l.Pairwise (fun p q => slideOrderKey p ≤ slideOrderKey q) := by
  obtain ⟨keyed, hk, rfl⟩ := sortSlideFiles_ok h
  have hinv := (keySlides_ok _ _ hk).2
  have hs : (keyed.insertionSort keyLE).Pairwise keyLE :=
    List.sorted_insertionSort keyLE keyed
  rw [List.pairwise_map]
  refine hs.imp_of_mem ?_
  intro a b ha hb hab
  have ha2 := hinv a ((List.mem_insertionSort keyLE).mp ha)
  have hb2 := hinv b ((List.mem_insertionSort keyLE).mp hb)
  have : a.1 ≤ b.1 := hab
  rw [ha2, hb2] at this
  exact this

/-- The sorted slide list is a permutation of the selected members. -/
theorem sortSlideFiles_perm {paths l : List String}
    (h : sortSlideFiles paths = Except.ok l) :
    l.Perm (paths.filter isSlidePath) := by
  obtain ⟨keyed, hk, rfl⟩ := sortSlideFiles_ok h
  have hsnd := (keySlides_ok _ _ hk).1
  have hperm := (List.perm_insertionSort keyLE keyed).map (fun kp : Nat × String => kp.2)
  rw [hsnd] at hperm
  exact hperm

/-- Every path of the sorted slide list is a path of the archive. -/
theorem sortSlideFiles_mem {paths l : List String} {q : String}
    (h : sortSlideFiles paths = Except.ok l) (hq : q ∈ l) : q ∈ paths :=
  List.mem_of_mem_filter ((sortSlideFiles_perm h).mem_iff.mp hq)

/-- Monadic bind on a successful `Except` computation. -/
theorem okBind {α β : Type} (a : α) (f : α → Except ExtractError β) :
    (Except.ok a >>= f) = f a := rfl

/-- Monadic bind on a failed `Except` computation. -/
theorem errorBind {α β : Type} (e : ExtractError) (f : α → Except ExtractError β) :
    ((Except.error e : Except ExtractError α) >>= f) = Except.error e := rfl

/-- A path that occurs in the archive listing can be opened. -/
theorem openMember_isSome {members : List Member} {q : String}
    (h : q ∈ members.map Member.path) : (openMember members q).isSome := by
  obtain ⟨m, hm, rfl⟩ := List.mem_map.mp h
  have hmem : m ∈ members.filter (fun x => x.path == m.path) :=
    List.mem_filter.mpr ⟨hm, by simp⟩
  have hne : members.filter (fun x => x.path == m.path) ≠ [] :=
    List.ne_nil_of_mem hmem
  cases hg : (members.filter (fun x => x.path == m.path)).getLast? with
  | none => exact absurd (List.getLast?_eq_none_iff.mp hg) hne
  | some x => simp [openMember, hg]

/-- A successful run of the slide loop numbers its results `idx, idx+1, …`
one result per slide file. -/
theorem processSlides_ok_spec :
    ∀ (members : List Member) (l : List String) (idx : Nat) (res : List SlideResult),
      processSlides members l idx = Except.ok res →
      res.map SlideResult.slide = List.range' idx res.length ∧ res.length = l.length
  | _, [], _, res => by
      intro h
      simp only [processSlides] at h
      cases h
      simp
  | members, p :: rest, idx, res => by
      intro h
      simp only [processSlides] at h
      cases ho : openMember members p with
      | none => rw [ho] at h; cases h
      | some c =>
          rw [ho] at h
          cases c with
          | malformed => simp only [okBind, parseSlide, errorBind] at h; cases h
          | xml root =>
              simp only [okBind, parseSlide] at h
              cases hr : processSlides members rest (idx + 1) with
              | error e => rw [hr] at h; simp only [errorBind] at h; cases h
              | ok tail =>
                  rw [hr] at h
                  simp only [okBind, pure, Except.pure, Except.ok.injEq] at h
                  subst h
                  have ih := processSlides_ok_spec members rest (idx + 1) tail hr
                  constructor
                  · simp only [List.map_cons, List.length_cons, ih.1]
                    rw [List.range'_succ]
                  · simp [ih.2]

/-- If some slide file of the list opens to unparsable bytes, the loop
aborts with `malformedSlideXML`. -/
theorem processSlides_malformed :
    ∀ (members : List Member) (l : List String) (idx : Nat),
      (∀ q ∈ l, (openMember members q).isSome) →
      (∃ p ∈ l, openMember members p = some Content.malformed) →
      processSlides members l idx = Except.error ExtractError.malformedSlideXML
  | _, [], _ => by
      intro _ hex
      obtain ⟨p, hp, _⟩ := hex
      cases hp
  | members, q :: rest, idx => by
      intro hall hex
      cases ho : openMember members q with
      | none =>
          have := hall q (List.mem_cons_self q rest)
          rw [ho] at this
          cases this
      | some c =>
          cases c with
          | malformed =>
              simp only [processSlides, ho, okBind, parseSlide, errorBind]
          | xml root =>
              obtain ⟨p, hp, hmal⟩ := hex
              rcases List.mem_cons.mp hp with hpq | hp2
              · subst hpq
                rw [ho] at hmal
                cases hmal
              · have ih := processSlides_malformed members rest (idx + 1)
                  (fun x hx => hall x (List.mem_cons_of_mem q hx)) ⟨p, hp2, hmal⟩
                simp only [processSlides, ho, okBind, parseSlide, ih, errorBind]

mutual

/-- The xpath query selects exactly the document-order elements whose
namespace is presentationml and whose local name is `cNvPr`. -/
theorem findCNvPr_eq_filter :
    ∀ x : XmlNode, findCNvPr x = (allElements x).filter isTargetNode
  | XmlNode.elem ns n a cs => by
      rw [findCNvPr, allElements, List.filter_cons]
      by_cases h : ns = pNS ∧ n = "cNvPr"
      · simp [isTargetNode, nsOf, localNameOf, h.1, h.2,
          findCNvPrList_eq_filter cs]
      · rw [if_neg h]
        have hb : isTargetNode (XmlNode.elem ns n a cs) = false := by
          simp only [isTargetNode, nsOf, localNameOf]
          rcases Decidable.not_and_iff_or_not.mp h with h1 | h1 <;> simp [h1]
        simp [hb, findCNvPrList_eq_filter cs]

/-- Sibling-list version of `findCNvPr_eq_filter`. -/
theorem findCNvPrList_eq_filter :
    ∀ l : List XmlNode, findCNvPrList l = (allElementsList l).filter isTargetNode
  | [] => by rw [findCNvPrList, allElementsList, List.filter_nil]
  | c :: cs => by
      rw [findCNvPrList, allElementsList, List.filter_append,
        findCNvPr_eq_filter c, findCNvPrList_eq_filter cs]

end

/-- The code's truthiness fallback agrees with the spec's case split on
the `descr` attribute. -/
theorem descOf_eq_descSpec (n : XmlNode) : descOf n = descSpec n := by
  unfold descOf descSpec
  cases getAttr n "descr" with
  | none => rfl
  | some s => by_cases hs : s = "" <;> simp [hs]

/-- The report accumulation loop, started from any prefix, appends one
block per slide. -/
theorem foldl_report_blocks :
    ∀ (ds : List SlideResult) (init : List String),
      ds.foldl
        (fun acc slide =>
          (acc ++ ["Slide " ++ toString slide.slide ++ ":"])
            ++ slide.descriptions.map (fun d => "  - " ++ d) ++ [""])
        init
      = init ++ ds.flatMap slideBlockSpec
  | [], init => by simp
  | s :: rest, init => by
      rw [List.foldl_cons, foldl_report_blocks rest, List.flatMap_cons]
      simp [slideBlockSpec]

/-! ## Claims -/

/-- C1: for every archive listing, the selected slide members come out of
`sortSlideFiles` ordered ascending by the unsigned integer read off the
concatenated decimal digits of each path — numeric, not lexical, order —
and they are exactly the selected members. -/
theorem claim_slide_order_numeric :
    ∀ (paths l : List String),
      sortSlideFiles paths = Except.ok l →
      l.Pairwise (fun p q => slideOrderKey p ≤ slideOrderKey q)
        ∧ l.Perm (paths.filter isSlidePath) :=
  fun _ _ h => ⟨sortSlideFiles_pairwise h, sortSlideFiles_perm h⟩

/-- Witness for C1: the listing order `slide2.xml, slide10.xml, slide1.xml`
is processed as `slide1.xml, slide2.xml, slide10.xml`. -/
theorem claim_slide_order_numeric_witness :
    List.Pairwise (fun p q => slideOrderKey p ≤ slideOrderKey q)
        ["ppt/slides/slide1.xml", "ppt/slides/slide2.xml", "ppt/slides/slide10.xml"]
      ∧ List.Perm
          ["ppt/slides/slide1.xml", "ppt/slides/slide2.xml", "ppt/slides/slide10.xml"]
          (["ppt/slides/slide2.xml", "ppt/slides/slide10.xml", "ppt/slides/slide1.xml"].filter
            isSlidePath) :=
  claim_slide_order_numeric
    ["ppt/slides/slide2.xml", "ppt/slides/slide10.xml", "ppt/slides/slide1.xml"]
    ["ppt/slides/slide1.xml", "ppt/slides/slide2.xml", "ppt/slides/slide10.xml"]
    rfl

/-- C2: every successful extraction of a valid archive with N qualifying
slide members returns exactly N results whose indices are the positions
1..N in ascending order, whatever the listing order. -/
theorem claim_indices_one_to_n :
    ∀ (members : List Member) (res : List SlideResult),
      extract_picture_descriptions (Buffer.validZip members) = Except.ok res →
      res.map SlideResult.slide = List.range' 1 res.length
        ∧ res.length = ((members.map Member.path).filter isSlidePath).length := by
  intro members res h
  rw [extract_validZip] at h
  cases hs : sortSlideFiles (members.map Member.path) with
  | error e => rw [hs] at h; cases h
  | ok l =>
      rw [hs] at h
      simp only [Except.bind] at h
      have hp := processSlides_ok_spec members l 1 res h
      exact ⟨hp.1, by rw [hp.2, (sortSlideFiles_perm hs).length_eq]⟩

/-- Witness for C2: the two-slide archive, listed out of numeric order,
yields indices `[1, 2]`. -/
theorem claim_indices_one_to_n_witness :
    twoSlideResult.map SlideResult.slide = List.range' 1 twoSlideResult.length
      ∧ twoSlideResult.length
        = ((twoSlideArchive.map Member.path).filter isSlidePath).length :=
  claim_indices_one_to_n twoSlideArchive twoSlideResult rfl

/-- C3: the collected descriptions are exactly one per matched node, in
document order, each being the literal `descr` value when present and
non-empty and the sentinel `"(No description)"` when absent or empty. -/
theorem claim_description_per_node :
    ∀ root : XmlNode,
      slideDescriptions root = (findCNvPr root).map descSpec
        ∧ (slideDescriptions root).length = (findCNvPr root).length := by
  intro root
  have h : slideDescriptions root = (findCNvPr root).map descSpec :=
    List.map_congr_left (fun n _ => descOf_eq_descSpec n)
  exact ⟨h, by rw [h, List.length_map]⟩

/-- C4: the slide markup parser matches exactly the document-order elements
in the presentationml namespace with local name `cNvPr`; in particular a
`cNvPr` element in the drawingml namespace contributes nothing. -/
theorem claim_namespace_qualified_match :
    (∀ root : XmlNode, findCNvPr root = (allElements root).filter isTargetNode)
      ∧ findCNvPr
          (XmlNode.elem pNS "sp" []
            [XmlNode.elem aNS "cNvPr" [("descr", "pic")] []]) = [] :=
  ⟨findCNvPr_eq_filter, rfl⟩

/-- C5: when any selected slide member fails to parse as XML, the whole
extraction fails with `malformedSlideXML`; no partial result is returned. -/
theorem claim_malformed_slide_aborts :
    ∀ (members : List Member) (l : List String) (p : String),
      sortSlideFiles (members.map Member.path) = Except.ok l →
      p ∈ l →
      openMember members p = some Content.malformed →
      extract_picture_descriptions (Buffer.validZip members)
        = Except.error ExtractError.malformedSlideXML := by
  intro members l p hs hp hmal
  rw [extract_validZip, hs]
  simp only [Except.bind]
  exact processSlides_malformed members l 1
    (fun q hq => openMember_isSome (sortSlideFiles_mem hs hq))
    ⟨p, hp, hmal⟩

/-- Witness for C5: an archive whose sole slide member is unparsable. -/
theorem claim_malformed_slide_aborts_witness :
    extract_picture_descriptions
        (Buffer.validZip [{ path := "ppt/slides/slide3.xml", content := Content.malformed }])
      = Except.error ExtractError.malformedSlideXML :=
  claim_malformed_slide_aborts
    [{ path := "ppt/slides/slide3.xml", content := Content.malformed }]
    ["ppt/slides/slide3.xml"] "ppt/slides/slide3.xml"
    rfl (List.mem_cons_self _ _) rfl

/-- C6: a byte buffer that is not a well-formed zip archive always fails
with `invalidArchive`, never with a partial result. -/
theorem claim_corrupt_buffer_invalid_archive :
    ∀ raw : List Nat,
      extract_picture_descriptions (Buffer.corrupt raw)
        = Except.error ExtractError.invalidArchive :=
  fun _ => rfl

/-- C7: a valid archive with zero qualifying slide members yields the
empty extraction result, not an error. -/
theorem claim_zero_slides_empty_result :
    ∀ members : List Member,
      (members.map Member.path).filter isSlidePath = [] →
      extract_picture_descriptions (Buffer.validZip members) = Except.ok [] := by
  intro members h
  rw [extract_validZip, sortSlideFiles_eq, h]
  simp [keySlides, Except.bind, processSlides]

/-- Witness for C7: an archive holding only a non-slide member. -/
theorem claim_zero_slides_empty_result_witness :
    extract_picture_descriptions
        (Buffer.validZip [{ path := "ppt/media/image1.png", content := Content.malformed }])
      = Except.ok [] :=
  claim_zero_slides_empty_result
    [{ path := "ppt/media/image1.png", content := Content.malformed }] rfl

/-- C8: the report is exactly the two header lines (file name, timestamp
formatted `YYYY-MM-DD HH:MM:SS`), a blank separator, then per slide a
`Slide <index>:` line, one `  - <description>` line per description and a
blank line, all joined by single newlines; shown on the example slide with
descriptions `["(No description)", "Chart"]`. -/
theorem claim_report_format :
    (∀ (fn ts : String) (ds : List SlideResult),
        buildReport fn ts ds = String.intercalate "\n" (reportLinesSpec fn ts ds))
      ∧ download_report
          { filename := some "deck.pptx",
            descriptions := some [{ slide := 1, descriptions := [sentinel, "Chart"] }] }
          { year := 2024, month := 1, day := 2, hour := 3, minute := 4, second := 5 }
        = ReportResponse.report
            "📄 Report for: deck.pptx\n🕒 Generated: 2024-01-02 03:04:05\n\nSlide 1:\n  - (No description)\n  - Chart\n" := by
  constructor
  · intro fn ts ds
    unfold buildReport reportLines
    rw [foldl_report_blocks]
    rfl
  · rfl

/-- C9: extraction is deterministic — identical byte buffers yield
field-by-field equal extraction results. -/
theorem claim_extraction_deterministic :
    ∀ b1 b2 : Buffer, b1 = b2 →
      extract_picture_descriptions b1 = extract_picture_descriptions b2 :=
  fun _ _ h => congrArg extract_picture_descriptions h

/-- Witness for C9: two runs on the same empty archive agree. -/
theorem claim_extraction_deterministic_witness :
    extract_picture_descriptions (Buffer.validZip [])
      = extract_picture_descriptions (Buffer.validZip []) :=
  claim_extraction_deterministic (Buffer.validZip []) (Buffer.validZip []) rfl

/-- C10: after a successful extraction whose result is the empty sequence
is stored in the last-report slot, `download_report` answers exactly as if
nothing had ever been stored: the 400 "No report available" response. -/
theorem claim_empty_report_truthiness :
    ∀ (buf : Buffer) (fn : String) (now : DateTime) (res : List SlideResult),
      extract_picture_descriptions buf = Except.ok res →
      res = [] →
      download_report { filename := some fn, descriptions := some res } now
          = ReportResponse.noReport
        ∧ download_report { filename := some fn, descriptions := some res } now
          = download_report { filename := none, descriptions := none } now := by
  intro buf fn now res hex hres
  subst hres
  exact ⟨rfl, rfl⟩

/-- Witness for C10: extracting the empty archive succeeds with zero
slides, and the stored empty report is served as "no report". -/
theorem claim_empty_report_truthiness_witness :
    download_report { filename := some "deck.pptx", descriptions := some [] }
        { year := 2024, month := 1, day := 2, hour := 3, minute := 4, second := 5 }
        = ReportResponse.noReport
      ∧ download_report { filename := some "deck.pptx", descriptions := some [] }
          { year := 2024, month := 1, day := 2, hour := 3, minute := 4, second := 5 }
        = download_report { filename := none, descriptions := none }
            { year := 2024, month := 1, day := 2, hour := 3, minute := 4, second := 5 } :=
  claim_empty_report_truthiness (Buffer.validZip []) "deck.pptx"
    { year := 2024, month := 1, day := 2, hour := 3, minute := 4, second := 5 } []
    rfl rfl

end PptxParser
